import Mathlib

/-!
Shallow embedding of the annotation-store modules of the
semi-automatic-image-annotation repository, together with proofs about
the behaviour of the embedded operations.

Embedded modules:
* `annotator/store/classes_store.py`   (`ClassesStore`)
* `annotator/store/single_image.py`    (`SingleImage`)
* `annotator/store/image_store.py`     (`ImageStore`)
* `annotator/store/annotation_export.py` (CSV export)

Conventions used throughout:
* Python exceptions are modelled with `Option`: an operation that raises
  returns `none`, an operation that returns normally returns `some` of the
  new state.  Sequences of operations are run with `Option.bind`, so a
  sequence "completes without raising" exactly when the run is `some`.
* Python `float` values that are only stored and moved around (bounding-box
  coordinates) are modelled as `ℚ`; no claim in scope computes with them.
* `uuid4()` identities are modelled as `Nat` values carried by the images.
-/

/-! ## classes_store.py -/

/-- One entry of `ClassesStore.classes`: a dictionary with keys
`uid`, `name`, `color`, `default` (`classes_store.py`, class docstring). -/
structure Cls where
  uid : Int
  name : String
  color : String
  default : Bool
deriving DecidableEq, Repr

/-- The `ClassesStore.DEFAULT_COLORS` list (`classes_store.py` line 19). -/
def DEFAULT_COLORS : List String :=
  ["#FF0000", "#00FF00", "#0000FF", "#FFFF00", "#00FFFF", "#FF00FF"]

/-- Number of stored classes whose `default` flag is set.  The invariant of
interest is `countDefault cs = 1`. -/
def countDefault (cs : List Cls) : Nat :=
  (cs.filter (fun c => c.default)).length

/-- `ClassesStore.add_class` (`classes_store.py` lines 42-68): raises
`ValueError` (here `none`) on a duplicate uid, a duplicate name, or a second
default class; otherwise appends the new class dictionary. -/
def add_class (cs : List Cls) (uid : Int) (name color : String)
    (is_default : Bool) : Option (List Cls) :=
  if cs.any (fun c => c.uid == uid) then none
  else if cs.any (fun c => c.name == name) then none
  else if is_default && cs.any (fun c => c.default) then none
  else some (cs ++ [⟨uid, name, color, is_default⟩])

/-- `ClassesStore.delete_class` (`classes_store.py` lines 70-80): filters out
every class with the given uid; if no default class remains it sets
`classes[0]["default"] = True`, which raises `IndexError` (here `none`) when
the filtered list is empty. -/
def delete_class (cs : List Cls) (uid : Int) : Option (List Cls) :=
  if (cs.filter (fun c => c.uid != uid)).any (fun c => c.default) then
    some (cs.filter (fun c => c.uid != uid))
  else
    match cs.filter (fun c => c.uid != uid) with
    | [] => none
    | c :: rest => some ({ c with default := true } :: rest)

/-- Mutation of the first element satisfying `p`, as performed by Python's
`next(x for x in xs if p(x))["field"] = v`; `none` models the `StopIteration`
raised when no element matches. -/
def updateFirst {α : Type} (p : α → Bool) (f : α → α) : List α → Option (List α)
  | [] => none
  | x :: rest =>
      if p x then some (f x :: rest)
      else (updateFirst p f rest).map (fun r => x :: r)

/-- `ClassesStore.set_default_uid` (`classes_store.py` lines 110-114): unsets
the first class with `default=True`, then sets `default=True` on the first
class with the given uid; either `next` raises `StopIteration` (here `none`)
when no class matches. -/
def set_default_uid (cs : List Cls) (uid : Int) : Option (List Cls) :=
  (updateFirst (fun c => c.default) (fun c => { c with default := false }) cs).bind
    (fun cs1 => updateFirst (fun c => c.uid == uid) (fun c => { c with default := true }) cs1)

/-- Loop body of the `enumerate` loop in `ClassesStore.__init__`
(`classes_store.py` lines 38-40): every class whose position differs from
`keep` gets `default := false`; `j` is the position of the head of the
remaining list. -/
def forceSingleDefault (keep : Nat) (j : Nat) : List Cls → List Cls
  | [] => []
  | c :: rest =>
      (if j == keep then c else { c with default := false }) ::
        forceSingleDefault keep (j + 1) rest

/-- Deduplication step of `ClassesStore.__init__` (`classes_store.py` lines
34-40): when more than one class is default, only the first default is kept. -/
def mkClassesStoreFix (cs : List Cls) : List Cls :=
  if 1 < countDefault cs then
    forceSingleDefault (cs.findIdx (fun x => x.default)) 0 cs
  else cs

/-- `ClassesStore.__init__` on a list of class dictionaries
(`classes_store.py` lines 29-40).  An empty argument raises `IndexError` at
`classes[0]` (here `none`).  If no class is default the first becomes
default; if several are default only the first default is kept. -/
def mkClassesStoreOfDicts : List Cls → Option (List Cls)
  | [] => none
  | c :: rest =>
      some (mkClassesStoreFix
        (if (c :: rest).any (fun x => x.default) then c :: rest
         else { c with default := true } :: rest))

/-- Loop of `ClassesStore.__init__` on a list of names
(`classes_store.py` lines 24-28): `add_class(i, name, DEFAULT_COLORS[len % 6],
i == 0)` for each name in order; `acc` is the store built so far, whose length
equals `i`. -/
def mkClassesStoreOfNamesGo (names : List String) (i : Nat) (acc : List Cls) :
    Option (List Cls) :=
  match names with
  | [] => some acc
  | n :: rest =>
      (add_class acc (Int.ofNat i) n
        (DEFAULT_COLORS.getD (acc.length % DEFAULT_COLORS.length) "") (i == 0)).bind
        (fun acc' => mkClassesStoreOfNamesGo rest (i + 1) acc')

/-- `ClassesStore.__init__` on a list of class names (`classes_store.py`
lines 24-28); an empty argument raises `IndexError` at `classes[0]`. -/
def mkClassesStoreOfNames (names : List String) : Option (List Cls) :=
  match names with
  | [] => none
  | _ :: _ => mkClassesStoreOfNamesGo names 0 []

/-- The two accepted shapes of the `classes` constructor argument. -/
inductive ClassesInit where
  | dicts (classes : List Cls)
  | names (names : List String)

/-- `ClassesStore.__init__` (`classes_store.py` lines 21-40). -/
def mkClassesStore : ClassesInit → Option (List Cls)
  | .dicts cs => mkClassesStoreOfDicts cs
  | .names ns => mkClassesStoreOfNames ns

/-- The mutating `ClassesStore` operations quantified over in the spec. -/
inductive ClsOp where
  | add (uid : Int) (name color : String) (is_default : Bool)
  | del (uid : Int)
  | setDefault (uid : Int)

/-- Apply one `ClassesStore` operation. -/
def applyClsOp (cs : List Cls) : ClsOp → Option (List Cls)
  | .add uid name color is_default => add_class cs uid name color is_default
  | .del uid => delete_class cs uid
  | .setDefault uid => set_default_uid cs uid

/-- Run a sequence of `ClassesStore` operations; `some` exactly when every
operation completes without raising. -/
def runClsOps (cs : List Cls) : List ClsOp → Option (List Cls)
  | [] => some cs
  | op :: ops => (applyClsOp cs op).bind (fun cs' => runClsOps cs' ops)

/-! ## Lemmas: the unique-default invariant of ClassesStore (claim C1) -/

/-- A throwaway class record, used only as the default value of `List.getD`. -/
def dCls : Cls := ⟨0, "", "", false⟩

lemma countDefault_nil : countDefault [] = 0 := rfl

lemma countDefault_cons (c : Cls) (cs : List Cls) :
    countDefault (c :: cs) = (if c.default then 1 else 0) + countDefault cs := by
  by_cases h : c.default
  · simp [countDefault, List.filter_cons, h]
    omega
  · simp [countDefault, List.filter_cons, h]

lemma countDefault_append (l1 l2 : List Cls) :
    countDefault (l1 ++ l2) = countDefault l1 + countDefault l2 := by
  simp [countDefault, List.filter_append]

lemma countDefault_zero_of_any_false {cs : List Cls}
    (h : cs.any (fun c => c.default) = false) : countDefault cs = 0 := by
  induction cs with
  | nil => rfl
  | cons c rest ih =>
    simp only [List.any_cons, Bool.or_eq_false_iff] at h
    simp [countDefault_cons, h.1, ih h.2]

lemma countDefault_pos_of_any_true {cs : List Cls}
    (h : cs.any (fun c => c.default) = true) : 0 < countDefault cs := by
  induction cs with
  | nil => simp at h
  | cons c rest ih =>
    simp only [List.any_cons, Bool.or_eq_true] at h
    rcases h with h | h
    · simp [countDefault_cons, h]
    · have := ih h
      rw [countDefault_cons]
      omega

lemma add_class_eq_some {cs : List Cls} {uid : Int} {name color : String}
    {d : Bool} {cs' : List Cls}
    (h : add_class cs uid name color d = some cs') :
    cs' = cs ++ [⟨uid, name, color, d⟩] ∧
      (d = true → cs.any (fun c => c.default) = false) := by
  unfold add_class at h
  split at h
  · simp at h
  split at h
  · simp at h
  split at h
  · simp at h
  next hd =>
    refine ⟨(Option.some.inj h).symm, fun hdt => ?_⟩
    subst hdt
    simpa using hd

lemma add_class_preserves {cs : List Cls} {uid : Int} {name color : String}
    {d : Bool} {cs' : List Cls}
    (h1 : countDefault cs = 1) (h : add_class cs uid name color d = some cs') :
    countDefault cs' = 1 := by
  obtain ⟨rfl, hd⟩ := add_class_eq_some h
  by_cases hdb : d = true
  · have h0 := countDefault_zero_of_any_false (hd hdb)
    omega
  · have hdb' : d = false := by simpa using hdb
    subst hdb'
    simp [countDefault_append, countDefault_cons, countDefault_nil, h1]

lemma countDefault_filter_le (p : Cls → Bool) (cs : List Cls) :
    countDefault (cs.filter p) ≤ countDefault cs := by
  induction cs with
  | nil => simp [countDefault]
  | cons c rest ih =>
    by_cases hp : p c <;>
      simp [List.filter_cons, hp, countDefault_cons] <;> omega

lemma delete_class_preserves {cs : List Cls} {uid : Int} {cs' : List Cls}
    (h1 : countDefault cs = 1) (h : delete_class cs uid = some cs') :
    countDefault cs' = 1 := by
  unfold delete_class at h
  split at h
  · next hany =>
    cases h
    have hle := countDefault_filter_le (fun c => c.uid != uid) cs
    have hpos := countDefault_pos_of_any_true hany
    omega
  · next hany =>
    split at h
    · simp at h
    · next c rest heq =>
      cases h
      have h0 : countDefault (c :: rest) = 0 := by
        rw [← heq]
        exact countDefault_zero_of_any_false (by simpa using hany)
      rw [countDefault_cons] at h0
      simp [countDefault_cons]
      omega

lemma updateFirst_unset_count {cs cs' : List Cls}
    (h : updateFirst (fun c => c.default)
      (fun c => { c with default := false }) cs = some cs') :
    countDefault cs' + 1 = countDefault cs := by
  induction cs generalizing cs' with
  | nil => simp [updateFirst] at h
  | cons c rest ih =>
    simp only [updateFirst] at h
    split at h
    · next hdef =>
      cases h
      simp [countDefault_cons, hdef]
      omega
    · next hdef =>
      cases hm : updateFirst (fun c => c.default)
          (fun c => { c with default := false }) rest with
      | none => rw [hm] at h; simp at h
      | some r =>
        rw [hm] at h
        simp only [Option.map_some'] at h
        cases h
        have := ih hm
        simp only [Bool.not_eq_true] at hdef
        simp [countDefault_cons, hdef]
        omega

lemma updateFirst_set_count {p : Cls → Bool} {cs cs' : List Cls}
    (h0 : countDefault cs = 0)
    (h : updateFirst p (fun c => { c with default := true }) cs = some cs') :
    countDefault cs' = 1 := by
  induction cs generalizing cs' with
  | nil => simp [updateFirst] at h
  | cons c rest ih =>
    rw [countDefault_cons] at h0
    simp only [updateFirst] at h
    split at h
    · cases h
      simp [countDefault_cons]
      omega
    · cases hm : updateFirst p (fun c => { c with default := true }) rest with
      | none => rw [hm] at h; simp at h
      | some r =>
        rw [hm] at h
        simp only [Option.map_some'] at h
        cases h
        have := ih (by omega) hm
        rw [countDefault_cons]
        omega

lemma set_default_uid_preserves {cs : List Cls} {uid : Int} {cs' : List Cls}
    (h1 : countDefault cs = 1) (h : set_default_uid cs uid = some cs') :
    countDefault cs' = 1 := by
  unfold set_default_uid at h
  cases hm : updateFirst (fun c => c.default)
      (fun c => { c with default := false }) cs with
  | none => rw [hm] at h; simp at h
  | some cs1 =>
    rw [hm] at h
    simp only [Option.some_bind] at h
    have hu := updateFirst_unset_count hm
    exact updateFirst_set_count (by omega) h

lemma forceSingleDefault_count_lt {keep j : Nat} (h : keep < j) (cs : List Cls) :
    countDefault (forceSingleDefault keep j cs) = 0 := by
  induction cs generalizing j with
  | nil => rfl
  | cons c rest ih =>
    have hne : (j == keep) = false := by
      simp only [beq_eq_false_iff_ne, ne_eq]
      omega
    simp only [forceSingleDefault, hne]
    rw [countDefault_cons]
    simp [ih (Nat.lt_succ_of_lt h)]

lemma forceSingleDefault_count_ge {keep : Nat} (cs : List Cls) :
    ∀ j, j ≤ keep →
      countDefault (forceSingleDefault keep j cs) =
        if (cs.getD (keep - j) dCls).default then 1 else 0 := by
  induction cs with
  | nil => intro j _; simp [forceSingleDefault, countDefault, dCls]
  | cons c rest ih =>
    intro j hj
    by_cases hje : j = keep
    · subst hje
      have heq : (j == j) = true := by simp
      simp only [forceSingleDefault, heq, if_true]
      rw [countDefault_cons, forceSingleDefault_count_lt (Nat.lt_succ_self j)]
      simp
    · have hlt : j < keep := lt_of_le_of_ne hj hje
      have hne : (j == keep) = false := by
        simp only [beq_eq_false_iff_ne, ne_eq]
        omega
      simp only [forceSingleDefault, hne, if_false]
      rw [countDefault_cons, ih (j + 1) (by omega)]
      have hsub : keep - j = (keep - (j + 1)) + 1 := by omega
      rw [hsub, List.getD_cons_succ]
      simp

lemma mkClassesStoreFix_count {cs : List Cls}
    (h1 : 0 < countDefault cs) : countDefault (mkClassesStoreFix cs) = 1 := by
  unfold mkClassesStoreFix
  split
  · next hgt =>
    have hex : ∃ x ∈ cs, (fun x : Cls => x.default) x = true := by
      by_contra hno
      push_neg at hno
      have : cs.any (fun x => x.default) = false := by
        simp only [List.any_eq_false]
        intro x hx
        simp [hno x hx]
      have := countDefault_zero_of_any_false this
      omega
    have hlt := List.findIdx_lt_length_of_exists hex
    have hget := @List.findIdx_getElem _ (fun x => x.default) cs hlt
    rw [forceSingleDefault_count_ge cs 0 (Nat.zero_le _)]
    rw [Nat.sub_zero, List.getD_eq_getElem cs dCls hlt]
    simp [hget]
  · next hle => omega

lemma mkClassesStoreOfDicts_count {classes cs' : List Cls}
    (h : mkClassesStoreOfDicts classes = some cs') : countDefault cs' = 1 := by
  cases classes with
  | nil => simp [mkClassesStoreOfDicts] at h
  | cons c rest =>
    simp only [mkClassesStoreOfDicts] at h
    cases h
    apply mkClassesStoreFix_count
    split
    · next hany => exact countDefault_pos_of_any_true hany
    · next hany =>
      rw [countDefault_cons]
      simp

lemma mkClassesStoreOfNamesGo_count {names : List String} {i : Nat}
    {acc cs' : List Cls} (hi : i ≠ 0) (h1 : countDefault acc = 1)
    (h : mkClassesStoreOfNamesGo names i acc = some cs') :
    countDefault cs' = 1 := by
  induction names generalizing i acc with
  | nil =>
    simp only [mkClassesStoreOfNamesGo] at h
    cases h
    exact h1
  | cons n rest ih =>
    simp only [mkClassesStoreOfNamesGo] at h
    cases hm : add_class acc (Int.ofNat i) n
        (DEFAULT_COLORS.getD (acc.length % DEFAULT_COLORS.length) "") (i == 0) with
    | none => rw [hm] at h; simp at h
    | some acc' =>
      rw [hm] at h
      simp only [Option.some_bind] at h
      have hne1 : i + 1 ≠ 0 := by omega
      exact ih hne1 (add_class_preserves h1 hm) h

lemma mkClassesStoreOfNames_count {names : List String} {cs' : List Cls}
    (h : mkClassesStoreOfNames names = some cs') : countDefault cs' = 1 := by
  cases names with
  | nil => simp [mkClassesStoreOfNames] at h
  | cons n rest =>
    simp only [mkClassesStoreOfNames, mkClassesStoreOfNamesGo] at h
    have hadd : add_class ([] : List Cls) (Int.ofNat 0) n
        (DEFAULT_COLORS.getD (([] : List Cls).length % DEFAULT_COLORS.length) "")
        ((0 : Nat) == 0)
        = some [⟨Int.ofNat 0, n, DEFAULT_COLORS.getD 0 "", true⟩] := by
      simp [add_class]
    rw [hadd] at h
    simp only [Option.some_bind] at h
    exact mkClassesStoreOfNamesGo_count (by omega)
      (by simp [countDefault_cons, countDefault_nil]) h

lemma mkClassesStore_count {ini : ClassesInit} {s0 : List Cls}
    (h : mkClassesStore ini = some s0) : countDefault s0 = 1 := by
  cases ini with
  | dicts cs => exact mkClassesStoreOfDicts_count h
  | names ns => exact mkClassesStoreOfNames_count h

lemma applyClsOp_preserves {cs cs' : List Cls} {op : ClsOp}
    (h1 : countDefault cs = 1) (h : applyClsOp cs op = some cs') :
    countDefault cs' = 1 := by
  cases op with
  | add uid name color d => exact add_class_preserves h1 h
  | del uid => exact delete_class_preserves h1 h
  | setDefault uid => exact set_default_uid_preserves h1 h

lemma runClsOps_preserves {cs cs' : List Cls} {ops : List ClsOp}
    (h1 : countDefault cs = 1) (h : runClsOps cs ops = some cs') :
    countDefault cs' = 1 := by
  induction ops generalizing cs with
  | nil =>
    simp only [runClsOps] at h
    cases h
    exact h1
  | cons op ops ih =>
    simp only [runClsOps] at h
    cases hm : applyClsOp cs op with
    | none => rw [hm] at h; simp at h
    | some cs1 =>
      rw [hm] at h
      simp only [Option.some_bind] at h
      exact ih (applyClsOp_preserves h1 hm) h

/-- C1: for every `ClassesStore` constructed with at least one class (so the
constructor returns normally), after any sequence of `add_class`,
`delete_class` and `set_default_uid` operations that complete without
raising, exactly one stored class has `default = true`. -/
theorem classes_store_exactly_one_default (ini : ClassesInit) (ops : List ClsOp)
    (s0 s : List Cls) (h0 : mkClassesStore ini = some s0)
    (h : runClsOps s0 ops = some s) : countDefault s = 1 :=
  runClsOps_preserves (mkClassesStore_count h0) h

/-- Witness for C1: a concrete run through the constructor, `add_class`,
`set_default_uid` and `delete_class` ending with exactly one default class. -/
theorem classes_store_exactly_one_default_witness :
    mkClassesStore (.names ["a", "b"])
      = some [⟨0, "a", "#FF0000", true⟩, ⟨1, "b", "#00FF00", false⟩] ∧
    runClsOps [⟨0, "a", "#FF0000", true⟩, ⟨1, "b", "#00FF00", false⟩]
      [.add 2 "c" "#0000FF" false, .setDefault 2, .del 0]
      = some [⟨1, "b", "#00FF00", false⟩, ⟨2, "c", "#0000FF", true⟩] ∧
    countDefault [⟨1, "b", "#00FF00", false⟩, ⟨2, "c", "#0000FF", true⟩] = 1 :=
  ⟨by decide, by decide,
    classes_store_exactly_one_default (.names ["a", "b"])
      [.add 2 "c" "#0000FF" false, .setDefault 2, .del 0]
      [⟨0, "a", "#FF0000", true⟩, ⟨1, "b", "#00FF00", false⟩]
      [⟨1, "b", "#00FF00", false⟩, ⟨2, "c", "#0000FF", true⟩]
      (by decide) (by decide)⟩

/-! ## Claims C7 and C10: delete_class edge behaviour -/

/-- C7 counterexample: deleting the last remaining class does NOT return
normally; the default-restoration step `self.classes[0]["default"] = True`
raises `IndexError` on the emptied list. -/
theorem delete_class_last_class_raises :
    delete_class [⟨0, "a", "#FF0000", true⟩] 0 = none := by decide

/-- C7 (amended): `delete_class` enforces no at-least-one-class guard on
which uid may be deleted; it returns normally exactly when at least one class
remains after the deletion.  In particular deleting the last remaining class
raises (`IndexError`), rather than leaving an empty store silently. -/
theorem delete_class_succeeds_iff_remainder_nonempty (cs : List Cls) (uid : Int) :
    (delete_class cs uid).isSome ↔ cs.filter (fun c => c.uid != uid) ≠ [] := by
  unfold delete_class
  split
  · next hany =>
    simp only [Option.isSome_some, true_iff]
    intro hnil
    rw [hnil] at hany
    simp at hany
  · split
    · next heq => simp [heq]
    · next c rest heq => simp [heq]

/-- C10: calling `delete_class` with a uid that belongs to no stored class
raises no error and leaves the class list entirely unchanged, provided some
class is default (which the store invariant guarantees). -/
theorem delete_class_unknown_uid_noop (cs : List Cls) (uid : Int)
    (hdef : cs.any (fun c => c.default) = true)
    (hu : ∀ c ∈ cs, c.uid ≠ uid) :
    delete_class cs uid = some cs := by
  have hfeq : cs.filter (fun c => c.uid != uid) = cs :=
    List.filter_eq_self.mpr (fun a ha => by simpa using hu a ha)
  unfold delete_class
  rw [hfeq]
  simp [hdef]

/-- Witness for C10: deleting the unknown uid 5 from a concrete two-class
store returns the store unchanged. -/
theorem delete_class_unknown_uid_noop_witness :
    ([⟨0, "a", "#FF0000", true⟩, ⟨1, "b", "#00FF00", false⟩] : List Cls).any
        (fun c => c.default) = true ∧
    delete_class [⟨0, "a", "#FF0000", true⟩, ⟨1, "b", "#00FF00", false⟩] 5
      = some [⟨0, "a", "#FF0000", true⟩, ⟨1, "b", "#00FF00", false⟩] :=
  ⟨by decide,
    delete_class_unknown_uid_noop _ 5 (by decide) (by decide)⟩

/-! ## single_image.py -/

/-- One detection returned by the model: a dictionary with keys `boxn`
(normalized `[center_x, center_y, width, height]` box, a Python list of
floats) and `label` (class-name string). -/
structure DetRes where
  boxn : List ℚ
  label : String
deriving DecidableEq, Repr

/-- The mutable state of a `SingleImage` (`single_image.py` lines 35-46).
The constructor-only fields `path`, `name` never change afterwards; `uuid`
models the `uuid4()` identity. -/
structure SImg where
  uuid : Nat
  path : String
  name : String
  boxes : List (List ℚ)
  label_uids : List Int
  ready : Bool
  skip : Bool
  auto_intialized : Bool
deriving DecidableEq, Repr

/-- A throwaway image record, used only as the default value of `List.getD`
at positions the source guarantees to be in bounds. -/
def dImg : SImg := ⟨0, "", "", [], [], false, false, false⟩

/-- `SingleImage.labels_to_uids` (`single_image.py` lines 89-106): for each
label, `get_uid` when the label is a stored class name, otherwise
`get_default_uid`; the latter raises `StopIteration` (here `none`) when no
class is default. -/
def labels_to_uids (cs : List Cls) (labels : List String) : Option (List Int) :=
  match labels with
  | [] => some []
  | l :: rest =>
      (if (cs.map (fun c => c.name)).contains l then
        (cs.find? (fun c => c.name == l)).map (fun c => c.uid)
      else
        (cs.find? (fun c => c.default)).map (fun c => c.uid)).bind
      (fun u => (labels_to_uids cs rest).map (fun us => u :: us))

/-- `SingleImage.init` (`single_image.py` lines 48-60).  `hasModel` models
`model is not None`; `openDet` models the joint outcome of `Image.open(path)`
and `model(img)`: `none` when either raises, `some res` when both return.
The `try` block assigns `self.boxes` first, then `self.label_uids`, then
`self.auto_intialized`; when `labels_to_uids` raises, the caught exception
leaves the already-performed `boxes` assignment in place.  The `except`
clause only prints, so the function never raises. -/
def SingleImage.init (img : SImg) (cs : List Cls) (hasModel : Bool)
    (openDet : Option (List DetRes)) : SImg :=
  if img.auto_intialized then img
  else if !hasModel then img
  else
    match openDet with
    | none => img
    | some res =>
        match labels_to_uids cs (res.map (fun r => r.label)) with
        | none => { img with boxes := res.map (fun r => r.boxn) }
        | some uids =>
            { img with boxes := res.map (fun r => r.boxn),
                       label_uids := uids, auto_intialized := true }

/-- The `SingleImage` operations quantified over in claim C8.  The `init`
operation carries the class store and the open/detect outcome of that
particular call. -/
inductive SOp where
  | init (cs : List Cls) (hasModel : Bool) (openDet : Option (List DetRes))
  | add_box (box : List ℚ) (label_uid : Int)
  | delete (idx : Nat)
  | change_label (idx : Nat) (label_uid : Int)
  | delete_all_with_label (label_uid : Int)
  | change_all_labels (old_label_uid new_label_uid : Int)

/-- Apply one `SingleImage` operation (`single_image.py`).
`delete` pops index `idx` from `boxes` then from `label_uids`
(lines 75-82); an out-of-range index raises `IndexError` (here `none`).
`delete_all_with_label` (lines 108-115) reads `label_uids[i]` for every box
index `i`, raising when `boxes` is longer than `label_uids`. -/
def applySOp (img : SImg) : SOp → Option SImg
  | .init cs hasModel openDet => some (SingleImage.init img cs hasModel openDet)
  | .add_box box label_uid =>
      some { img with boxes := img.boxes ++ [box],
                      label_uids := img.label_uids ++ [label_uid] }
  | .delete idx =>
      if idx < img.boxes.length ∧ idx < img.label_uids.length then
        some { img with boxes := img.boxes.eraseIdx idx,
                        label_uids := img.label_uids.eraseIdx idx }
      else none
  | .change_label idx label_uid =>
      if idx < img.label_uids.length then
        some { img with label_uids := img.label_uids.set idx label_uid }
      else none
  | .delete_all_with_label label_uid =>
      if img.boxes.length ≤ img.label_uids.length then
        some { img with
          boxes := ((img.boxes.zip img.label_uids).filter
            (fun bl => bl.2 != label_uid)).map (fun bl => bl.1),
          label_uids := img.label_uids.filter (fun l => l != label_uid) }
      else none
  | .change_all_labels old_label_uid new_label_uid =>
      some { img with
        label_uids := img.label_uids.map
          (fun l => if l == old_label_uid then new_label_uid else l) }

/-- Run a sequence of `SingleImage` operations. -/
def runSOps (img : SImg) : List SOp → Option SImg
  | [] => some img
  | op :: ops => (applySOp img op).bind (fun img' => runSOps img' ops)

/-! ## Claims C3 and C8: failure behaviour of init and the length invariant -/

lemma labels_to_uids_length {cs : List Cls} {ls : List String} {us : List Int}
    (h : labels_to_uids cs ls = some us) : us.length = ls.length := by
  induction ls generalizing us with
  | nil =>
    simp only [labels_to_uids] at h
    cases h
    rfl
  | cons l rest ih =>
    simp only [labels_to_uids] at h
    cases hu : (if (cs.map (fun c => c.name)).contains l then
        (cs.find? (fun c => c.name == l)).map (fun c => c.uid)
      else
        (cs.find? (fun c => c.default)).map (fun c => c.uid)) with
    | none => rw [hu] at h; simp at h
    | some u =>
      rw [hu] at h
      simp only [Option.some_bind] at h
      cases hr : labels_to_uids cs rest with
      | none => rw [hr] at h; simp at h
      | some us' =>
        rw [hr] at h
        simp only [Option.map_some'] at h
        cases h
        simp [ih hr]

/-- C3 counterexample: on a `SingleImage` that is not yet auto-initialized,
when the detector returns normally but the label-to-uid mapping fails (no
matching class name and no default class), `init` does NOT leave the state
unchanged: `boxes` has already been overwritten with the detector's boxes. -/
theorem init_label_mapping_failure_changes_boxes :
    labels_to_uids [⟨0, "x", "#FF0000", false⟩] ["zz"] = none ∧
    (SingleImage.init ⟨7, "p.jpg", "p.jpg", [], [], false, false, false⟩
        [⟨0, "x", "#FF0000", false⟩] true
        (some [⟨[0, 0, 1, 1], "zz"⟩])).boxes
      ≠ (⟨7, "p.jpg", "p.jpg", [], [], false, false, false⟩ : SImg).boxes := by
  refine ⟨by decide, ?_⟩
  decide

/-- C3 (amended): `SingleImage.init` never raises, and if the image open or
the detector invocation fails it leaves the image entirely unchanged; if
instead the label-to-uid mapping fails, it leaves `label_uids` and
`auto_intialized` unchanged but `boxes` is overwritten with the detector's
boxes (the `self.boxes` assignment precedes the failing
`self.labels_to_uids` call inside the `try` block). -/
theorem init_failure_state (img : SImg) (cs : List Cls) (hasModel : Bool)
    (res : List DetRes) (hni : img.auto_intialized = false) :
    SingleImage.init img cs hasModel none = img ∧
    (hasModel = false → SingleImage.init img cs hasModel (some res) = img) ∧
    (labels_to_uids cs (res.map (fun r => r.label)) = none →
      SingleImage.init img cs true (some res)
        = { img with boxes := res.map (fun r => r.boxn) }) := by
  refine ⟨?_, ?_, ?_⟩
  · cases hasModel <;> simp [SingleImage.init, hni]
  · intro hm
    subst hm
    simp [SingleImage.init, hni]
  · intro hmap
    simp [SingleImage.init, hni, hmap]

/-- Witness for C3 (amended): the open/detect-failure case really leaves the
concrete image unchanged, and the label-mapping-failure case really sets
exactly the boxes field. -/
theorem init_failure_state_witness :
    (⟨7, "p", "p", [], [5], false, false, false⟩ : SImg).auto_intialized = false ∧
    SingleImage.init ⟨7, "p", "p", [], [5], false, false, false⟩
        [⟨0, "x", "#FF0000", false⟩] true none
      = ⟨7, "p", "p", [], [5], false, false, false⟩ ∧
    SingleImage.init ⟨7, "p", "p", [], [5], false, false, false⟩
        [⟨0, "x", "#FF0000", false⟩] true (some [⟨[0, 0, 1, 1], "zz"⟩])
      = ⟨7, "p", "p", [[0, 0, 1, 1]], [5], false, false, false⟩ :=
  ⟨by decide,
    (init_failure_state ⟨7, "p", "p", [], [5], false, false, false⟩
      [⟨0, "x", "#FF0000", false⟩] true
      [⟨[0, 0, 1, 1], "zz"⟩] (by decide)).1,
    by
      exact (init_failure_state ⟨7, "p", "p", [], [5], false, false, false⟩
        [⟨0, "x", "#FF0000", false⟩] true
        [⟨[0, 0, 1, 1], "zz"⟩] (by decide)).2.2 (by decide)⟩

/-- C8 counterexample: after `add_box` followed by an `init` whose detector
returns two boxes but whose label-to-uid mapping fails, `boxes` has length 2
while `label_uids` still has length 1. -/
theorem boxes_labels_length_cex :
    runSOps ⟨7, "p", "p", [], [], false, false, false⟩
        [.add_box [0, 0, 1, 1] 5,
         .init [⟨0, "x", "#FF0000", false⟩] true
           (some [⟨[2, 2, 2, 2], "zz"⟩, ⟨[3, 3, 3, 3], "zz"⟩])]
      = some ⟨7, "p", "p", [[2, 2, 2, 2], [3, 3, 3, 3]], [5], false, false, false⟩ ∧
    ((⟨7, "p", "p", [[2, 2, 2, 2], [3, 3, 3, 3]], [5],
        false, false, false⟩ : SImg).boxes.length
      ≠ (⟨7, "p", "p", [[2, 2, 2, 2], [3, 3, 3, 3]], [5],
        false, false, false⟩ : SImg).label_uids.length) := by
  refine ⟨by decide, by decide⟩

/-- An `init` operation is mapping-safe when its label-to-uid conversion
does not raise; only such an `init` can reach the partial-assignment state
of `single_image.py` lines 56-57. -/
def SOp.initSafe : SOp → Bool
  | .init cs true (some res) => (labels_to_uids cs (res.map (fun r => r.label))).isSome
  | _ => true

lemma zip_filter_map_length {u : Int} :
    ∀ (l1 : List (List ℚ)) (l2 : List Int), l1.length = l2.length →
      (((l1.zip l2).filter (fun bl => bl.2 != u)).map (fun bl => bl.1)).length
        = (l2.filter (fun l => l != u)).length := by
  intro l1
  induction l1 with
  | nil =>
    intro l2 h
    cases l2 with
    | nil => rfl
    | cons b t => simp at h
  | cons b t ih =>
    intro l2 h
    cases l2 with
    | nil => simp at h
    | cons c t2 =>
      simp only [List.length_cons, Nat.succ.injEq] at h
      by_cases hc : (c != u) = true
      · simp [List.zip_cons_cons, List.filter_cons, hc, ih t2 h]
      · simp only [Bool.not_eq_true] at hc
        simp [List.zip_cons_cons, List.filter_cons, hc, ih t2 h]

lemma applySOp_length {img img' : SImg} {op : SOp}
    (h0 : img.boxes.length = img.label_uids.length)
    (hs : op.initSafe = true) (h : applySOp img op = some img') :
    img'.boxes.length = img'.label_uids.length := by
  cases op with
  | init cs hasModel openDet =>
    simp only [applySOp] at h
    cases h
    by_cases ha : img.auto_intialized
    · simpa [SingleImage.init, ha] using h0
    · cases hasModel with
      | false => simpa [SingleImage.init, ha] using h0
      | true =>
        cases openDet with
        | none => simpa [SingleImage.init, ha] using h0
        | some res =>
          simp only [SOp.initSafe, Option.isSome_iff_exists] at hs
          obtain ⟨us, hus⟩ := hs
          simp [SingleImage.init, ha, hus, labels_to_uids_length hus]
  | add_box box label_uid =>
    simp only [applySOp] at h
    cases h
    simp [h0]
  | delete idx =>
    simp only [applySOp] at h
    split at h
    · next hlt =>
      cases h
      simp [List.length_eraseIdx, hlt.1, hlt.2, h0]
    · simp at h
  | change_label idx label_uid =>
    simp only [applySOp] at h
    split at h
    · cases h
      simp [h0]
    · simp at h
  | delete_all_with_label label_uid =>
    simp only [applySOp] at h
    split at h
    · cases h
      simpa using zip_filter_map_length img.boxes img.label_uids h0
    · simp at h
  | change_all_labels a b =>
    simp only [applySOp] at h
    cases h
    simp [h0]

/-- C8 (amended): `boxes` and `label_uids` keep equal lengths across any
sequence of `init`, `add_box`, `delete`, `change_label`,
`delete_all_with_label` and `change_all_labels` operations that complete
without raising, provided no `init` fails inside the label-to-uid mapping
(an `init` that fails there overwrites `boxes` alone and can break the
equality); and `delete idx` removes the entry at `idx` from both lists
atomically. -/
theorem boxes_labels_equal_length (img : SImg) (ops : List SOp) (img' : SImg)
    (h0 : img.boxes.length = img.label_uids.length)
    (hsafe : ∀ op ∈ ops, op.initSafe = true)
    (h : runSOps img ops = some img') :
    img'.boxes.length = img'.label_uids.length ∧
    (∀ (j : SImg) (idx : Nat), idx < j.boxes.length → idx < j.label_uids.length →
      applySOp j (.delete idx)
        = some { j with boxes := j.boxes.eraseIdx idx,
                        label_uids := j.label_uids.eraseIdx idx }) := by
  refine ⟨?_, ?_⟩
  · induction ops generalizing img with
    | nil =>
      simp only [runSOps] at h
      cases h
      exact h0
    | cons op ops ih =>
      simp only [runSOps] at h
      cases hm : applySOp img op with
      | none => rw [hm] at h; simp at h
      | some img1 =>
        rw [hm] at h
        simp only [Option.some_bind] at h
        exact ih img1
          (applySOp_length h0 (hsafe op (by simp)) hm)
          (fun o ho => hsafe o (by simp [ho])) h
  · intro j idx h1 h2
    simp [applySOp, h1, h2]

/-- Witness for C8 (amended): a concrete mapping-safe run through `add_box`,
`init`, `change_all_labels` and `delete` ends with equal lengths. -/
theorem boxes_labels_equal_length_witness :
    ((⟨7, "p", "p", [], [], false, false, false⟩ : SImg).boxes.length
      = (⟨7, "p", "p", [], [], false, false, false⟩ : SImg).label_uids.length) ∧
    (∀ op ∈ ([.add_box [0, 0, 1, 1] 5,
       .init [⟨0, "x", "#FF0000", false⟩] true (some [⟨[2, 2, 2, 2], "x"⟩]),
       .change_all_labels 0 9, .delete 0] : List SOp), op.initSafe = true) ∧
    runSOps ⟨7, "p", "p", [], [], false, false, false⟩
        [.add_box [0, 0, 1, 1] 5,
         .init [⟨0, "x", "#FF0000", false⟩] true (some [⟨[2, 2, 2, 2], "x"⟩]),
         .change_all_labels 0 9, .delete 0]
      = some ⟨7, "p", "p", [], [], false, false, true⟩ ∧
    ((⟨7, "p", "p", [], [], false, false, true⟩ : SImg).boxes.length
      = (⟨7, "p", "p", [], [], false, false, true⟩ : SImg).label_uids.length) :=
  ⟨by decide, by decide, by decide,
    (boxes_labels_equal_length ⟨7, "p", "p", [], [], false, false, false⟩
      [.add_box [0, 0, 1, 1] 5,
       .init [⟨0, "x", "#FF0000", false⟩] true (some [⟨[2, 2, 2, 2], "x"⟩]),
       .change_all_labels 0 9, .delete 0]
      ⟨7, "p", "p", [], [], false, false, true⟩
      (by decide) (by decide) (by decide)).1⟩

/-! ## image_store.py -/

/-- The mutable state of an `ImageStore` (`image_store.py` lines 14-23):
the ordered image list `_images` and the active identity `_current_uuid`.
The shared class store and the detection model are passed to the operations
as parameters `cs`, `hasModel` and `oracle`; `oracle img` models the joint
outcome of `Image.open(img.path)` and `model(img)` for that image. -/
structure ImageStore where
  images : List SImg
  current_uuid : Option Nat
deriving DecidableEq, Repr

/-- `self.active_image.init(self._detection_model)`: in-place `init` of the
first image whose uuid equals the active identity.  Both call sites
(`image_store.py` lines 23, 45) run only when `_current_uuid` points to a
stored image, so the fallback branches returning `s` are unreachable. -/
def ImageStore.initActive (cs : List Cls) (hasModel : Bool)
    (oracle : SImg → Option (List DetRes)) (s : ImageStore) : ImageStore :=
  match s.current_uuid with
  | none => s
  | some u =>
      match updateFirst (fun im => im.uuid == u)
          (fun im => SingleImage.init im cs hasModel (oracle im)) s.images with
      | none => s
      | some imgs => { s with images := imgs }

/-- `ImageStore.add_images` (`image_store.py` lines 25-47) on a list of
already-constructed images (the string branch builds a `SingleImage` from a
path before appending).  Returns the new store and the list of new uuids;
when the store was empty and at least one image is added, the first new
image becomes active and is eagerly initialized. -/
def add_images (cs : List Cls) (hasModel : Bool)
    (oracle : SImg → Option (List DetRes)) (s : ImageStore)
    (imgs : List SImg) : ImageStore × List Nat :=
  if s.images.isEmpty && !(imgs.map (fun im => im.uuid)).isEmpty then
    (ImageStore.initActive cs hasModel oracle
      { images := s.images ++ imgs,
        current_uuid := some ((imgs.map (fun im => im.uuid)).headD 0) },
     imgs.map (fun im => im.uuid))
  else ({ s with images := s.images ++ imgs }, imgs.map (fun im => im.uuid))

/-- The `else` branch of `ImageStore.delete_images` (`image_store.py` lines
81-84): drop every image whose uuid is listed; when the store becomes empty
the active identity becomes `None`. -/
def deleteFilter (s : ImageStore) (uuids : List Nat) : ImageStore :=
  { images := s.images.filter (fun im => !(uuids.contains im.uuid)),
    current_uuid :=
      if (s.images.filter (fun im => !(uuids.contains im.uuid))).isEmpty
      then none else s.current_uuid }

/-- Recursion of `ImageStore.delete_images` (`image_store.py` lines 49-84),
with an explicit fuel argument so the definition computes by reduction; each
recursive call strictly shrinks the uuid list, so
`fuel = uuids.length + 1` (as used by `delete_images`) never runs out.
Validation raises `ValueError` (here `none`) when some uuid is not stored or
when the uuid list has duplicates.  When the active image is among those to
delete and more than one image is stored, the active identity is re-pointed
to the image at `current_idx + 1` (or `current_idx - 1` when the active
image is last), the active image is removed, and the call recurses on the
remaining uuids. -/
def delete_images_go (fuel : Nat) (s : ImageStore) (uuids : List Nat) :
    Option ImageStore :=
  match fuel with
  | 0 => none
  | fuel + 1 =>
      if !(uuids.all (fun u => s.images.any (fun im => im.uuid == u))) then none
      else if !uuids.Nodup then none
      else
        match s.current_uuid with
        | some c =>
            if c ∈ uuids ∧ 1 < s.images.length then
              delete_images_go fuel
                { images := s.images.eraseIdx
                    (s.images.findIdx (fun im => im.uuid == c)),
                  current_uuid := some ((s.images.getD
                    (if s.images.findIdx (fun im => im.uuid == c)
                        < s.images.length - 1
                     then s.images.findIdx (fun im => im.uuid == c) + 1
                     else s.images.findIdx (fun im => im.uuid == c) - 1)
                    dImg).uuid) }
                (uuids.filter (fun u => u ≠ c))
            else some (deleteFilter s uuids)
        | none => some (deleteFilter s uuids)

/-- `ImageStore.delete_images` (`image_store.py` lines 49-84). -/
def delete_images (s : ImageStore) (uuids : List Nat) : Option ImageStore :=
  delete_images_go (uuids.length + 1) s uuids

/-- `ImageStore.jump_to` (`image_store.py` lines 110-126): raises
`ValueError` (here `none`) on an unknown uuid; otherwise activates the image
and initializes it when it has not been auto-initialized yet. -/
def jump_to (cs : List Cls) (hasModel : Bool)
    (oracle : SImg → Option (List DetRes)) (s : ImageStore) (u : Nat) :
    Option ImageStore :=
  if !(s.images.any (fun im => im.uuid == u)) then none
  else
    match s.images.find? (fun im => im.uuid == u) with
    | none => none
    | some im =>
        if im.auto_intialized then some { s with current_uuid := some u }
        else some (ImageStore.initActive cs hasModel oracle
          { s with current_uuid := some u })

/-- `ImageStore.next` (`image_store.py` lines 93-108): with no active image
it jumps to the first image when one exists; otherwise it jumps to the
successor of the active image unless the active image is last.  The
`next(i for i, ...)` search raises `StopIteration` (here `none`) when the
active identity is not stored, which no reachable state triggers. -/
def ImageStore.nextImage (cs : List Cls) (hasModel : Bool)
    (oracle : SImg → Option (List DetRes)) (s : ImageStore) :
    Option ImageStore :=
  match s.current_uuid with
  | none =>
      if 0 < s.images.length then
        jump_to cs hasModel oracle s ((s.images.headD dImg).uuid)
      else some s
  | some c =>
      match s.images.findIdx? (fun im => im.uuid == c) with
      | none => none
      | some ci =>
          if ci < s.images.length - 1 then
            jump_to cs hasModel oracle s ((s.images.getD (ci + 1) dImg).uuid)
          else some s

/-- `ImageStore.__init__` (`image_store.py` lines 14-23): starts empty, adds
the given images (which already activates and initializes the first one when
the list is non-empty), then re-derives `_current_uuid` as the first image's
uuid and initializes the active image. -/
def mkImageStore (cs : List Cls) (hasModel : Bool)
    (oracle : SImg → Option (List DetRes)) (imgs : List SImg) : ImageStore :=
  (fun s =>
    (fun s' =>
      if s'.current_uuid.isSome
      then ImageStore.initActive cs hasModel oracle s' else s')
    { s with current_uuid :=
        if 0 < s.images.length then some ((s.images.headD dImg).uuid)
        else none })
  (add_images cs hasModel oracle ⟨[], none⟩ imgs).1

/-- The `ImageStore` operations quantified over in claim C2. -/
inductive ImgOp where
  | add (imgs : List SImg)
  | del (uuids : List Nat)
  | next
  | jump (u : Nat)

/-- Apply one `ImageStore` operation. -/
def applyImgOp (cs : List Cls) (hasModel : Bool)
    (oracle : SImg → Option (List DetRes)) (s : ImageStore) :
    ImgOp → Option ImageStore
  | .add imgs => some (add_images cs hasModel oracle s imgs).1
  | .del uuids => delete_images s uuids
  | .next => ImageStore.nextImage cs hasModel oracle s
  | .jump u => jump_to cs hasModel oracle s u

/-- Run a sequence of `ImageStore` operations. -/
def runImgOps (cs : List Cls) (hasModel : Bool)
    (oracle : SImg → Option (List DetRes)) (s : ImageStore) :
    List ImgOp → Option ImageStore
  | [] => some s
  | op :: ops => (applyImgOp cs hasModel oracle s op).bind
      (fun s' => runImgOps cs hasModel oracle s' ops)

/-! ## Claim C2: active identity is non-null iff the store is non-empty -/

/-- The key `ImageStore` invariant stated by the spec. -/
def activeInv (s : ImageStore) : Prop :=
  s.current_uuid.isSome ↔ s.images ≠ []

lemma updateFirst_length {α : Type} {p : α → Bool} {f : α → α}
    {l l' : List α} (h : updateFirst p f l = some l') :
    l'.length = l.length := by
  induction l generalizing l' with
  | nil => simp [updateFirst] at h
  | cons x rest ih =>
    simp only [updateFirst] at h
    split at h
    · cases h
      simp
    · cases hm : updateFirst p f rest with
      | none => rw [hm] at h; simp at h
      | some r =>
        rw [hm] at h
        simp only [Option.map_some'] at h
        cases h
        simp [ih hm]

lemma initActive_current (cs : List Cls) (hasModel : Bool)
    (oracle : SImg → Option (List DetRes)) (s : ImageStore) :
    (ImageStore.initActive cs hasModel oracle s).current_uuid
      = s.current_uuid := by
  unfold ImageStore.initActive
  split
  · rfl
  · split
    · rfl
    · rfl

lemma initActive_length (cs : List Cls) (hasModel : Bool)
    (oracle : SImg → Option (List DetRes)) (s : ImageStore) :
    (ImageStore.initActive cs hasModel oracle s).images.length
      = s.images.length := by
  unfold ImageStore.initActive
  split
  · rfl
  · split
    · rfl
    · next heq => simpa using updateFirst_length heq

lemma add_images_fst (cs : List Cls) (hasModel : Bool)
    (oracle : SImg → Option (List DetRes)) (s : ImageStore)
    (imgs : List SImg) :
    (add_images cs hasModel oracle s imgs).1
      = if s.images.isEmpty && !(imgs.map (fun im => im.uuid)).isEmpty then
          ImageStore.initActive cs hasModel oracle
            { images := s.images ++ imgs,
              current_uuid := some ((imgs.map (fun im => im.uuid)).headD 0) }
        else { s with images := s.images ++ imgs } := by
  unfold add_images
  split
  · rfl
  · rfl

lemma add_images_snd (cs : List Cls) (hasModel : Bool)
    (oracle : SImg → Option (List DetRes)) (s : ImageStore)
    (imgs : List SImg) :
    (add_images cs hasModel oracle s imgs).2 = imgs.map (fun im => im.uuid) := by
  unfold add_images
  split
  · rfl
  · rfl

lemma add_images_inv (cs : List Cls) (hasModel : Bool)
    (oracle : SImg → Option (List DetRes)) (s : ImageStore)
    (imgs : List SImg) (hinv : activeInv s) :
    activeInv (add_images cs hasModel oracle s imgs).1 := by
  rw [add_images_fst]
  split
  · next hcond =>
    rw [Bool.and_eq_true] at hcond
    obtain ⟨h1, h2⟩ := hcond
    rw [List.isEmpty_iff] at h1
    rw [Bool.not_eq_true', List.isEmpty_eq_false] at h2
    unfold activeInv
    rw [initActive_current, ← List.length_pos, initActive_length]
    constructor
    · intro _
      simp only [List.length_append]
      have himgs : imgs ≠ [] := by
        intro hnil
        exact h2 (by simp [hnil])
      have := List.length_pos.mpr himgs
      omega
    · intro _
      simp
  · next hcond =>
    by_cases hs : s.images = []
    · have himgs : imgs = [] := by
        by_contra hne
        apply hcond
        rw [Bool.and_eq_true]
        refine ⟨List.isEmpty_iff.mpr hs, ?_⟩
        rw [Bool.not_eq_true', List.isEmpty_eq_false]
        intro hmn
        rw [List.map_eq_nil_iff] at hmn
        exact hne hmn
      unfold activeInv at hinv ⊢
      simp only [hs, himgs, List.append_nil]
      simpa [hs] using hinv
    · unfold activeInv at hinv ⊢
      simp only []
      constructor
      · intro _
        intro hnil
        rw [List.append_eq_nil] at hnil
        exact hs hnil.1
      · intro _
        exact hinv.mpr hs

lemma deleteFilter_inv {s : ImageStore} (uuids : List Nat)
    (hinv : activeInv s) : activeInv (deleteFilter s uuids) := by
  unfold deleteFilter activeInv
  split
  · next he =>
    simp only [Option.isSome_none, Bool.false_eq_true, false_iff, ne_eq,
      not_not]
    exact List.isEmpty_iff.mp he
  · next he =>
    have hne : s.images.filter (fun im => !(uuids.contains im.uuid)) ≠ [] := by
      intro hnil
      exact he (by rw [hnil]; rfl)
    simp only [ne_eq, hne, not_false_eq_true, iff_true]
    cases hc : s.current_uuid with
    | some c => simp
    | none =>
        have himgs : s.images = [] := by
          unfold activeInv at hinv
          by_contra hx
          have := hinv.mpr hx
          rw [hc] at this
          simp at this
        rw [himgs] at hne
        simp at hne

lemma filter_ne_length_lt {c : Nat} {uuids : List Nat} (h : c ∈ uuids) :
    (uuids.filter (fun u => u ≠ c)).length < uuids.length := by
  rw [List.length_filter_lt_length_iff_exists]
  exact ⟨c, h, by simp⟩

lemma delete_images_go_inv :
    ∀ (fuel : Nat) (uuids : List Nat) (s s' : ImageStore),
      uuids.length < fuel → activeInv s →
      delete_images_go fuel s uuids = some s' → activeInv s' := by
  intro fuel
  induction fuel with
  | zero => intro uuids s s' hf; omega
  | succ fuel ih =>
    intro uuids s s' hf hinv h
    simp only [delete_images_go] at h
    split at h
    · simp at h
    · next hall =>
      split at h
      · simp at h
      · split at h
        · next c hc =>
          split at h
          · next hcond =>
            refine ih (uuids.filter (fun u => u ≠ c)) _ s' ?_ ?_ h
            · have := filter_ne_length_lt hcond.1
              omega
            · unfold activeInv
              simp only [Option.isSome_some, true_iff]
              rw [← List.length_pos]
              have hex : ∃ im ∈ s.images, (fun im => im.uuid == c) im = true := by
                rw [Bool.not_eq_true', Bool.not_eq_false] at hall
                rw [List.all_eq_true] at hall
                have := hall c hcond.1
                simpa [List.any_eq_true] using this
              have hidx := List.findIdx_lt_length_of_exists hex
              rw [List.length_eraseIdx]
              simp only [hidx, if_true]
              omega
          · cases h
            exact deleteFilter_inv uuids hinv
        · cases h
          exact deleteFilter_inv uuids hinv

lemma delete_images_inv {s s' : ImageStore} {uuids : List Nat}
    (hinv : activeInv s) (h : delete_images s uuids = some s') :
    activeInv s' :=
  delete_images_go_inv (uuids.length + 1) uuids s s' (by omega) hinv h

lemma jump_to_inv {cs : List Cls} {hasModel : Bool}
    {oracle : SImg → Option (List DetRes)} {s s' : ImageStore} {u : Nat}
    (h : jump_to cs hasModel oracle s u = some s') : activeInv s' := by
  unfold jump_to at h
  split at h
  · simp at h
  next hany =>
  have hne : s.images ≠ [] := by
    intro hnil
    rw [hnil] at hany
    simp at hany
  split at h
  · simp at h
  · split at h
    · cases h
      unfold activeInv
      simpa using hne
    · cases h
      unfold activeInv
      rw [initActive_current, ← List.length_pos, initActive_length]
      simpa [List.length_pos] using hne

lemma nextImage_inv {cs : List Cls} {hasModel : Bool}
    {oracle : SImg → Option (List DetRes)} {s s' : ImageStore}
    (h : ImageStore.nextImage cs hasModel oracle s = some s') :
    activeInv s' := by
  unfold ImageStore.nextImage at h
  split at h
  · next hc =>
    split at h
    · exact jump_to_inv h
    · next hlen =>
      cases h
      unfold activeInv
      rw [hc]
      have himgs : s.images = [] := by
        rw [← List.length_eq_zero]
        omega
      simp [himgs]
  · next c hc =>
    split at h
    · simp at h
    · next ci hf =>
      split at h
      · exact jump_to_inv h
      · cases h
        unfold activeInv
        rw [hc]
        have himgs : s.images ≠ [] := by
          intro hnil
          rw [hnil] at hf
          simp [List.findIdx?] at hf
        simp [himgs]

lemma mkImageStore_inv (cs : List Cls) (hasModel : Bool)
    (oracle : SImg → Option (List DetRes)) (imgs : List SImg) :
    activeInv (mkImageStore cs hasModel oracle imgs) := by
  unfold mkImageStore
  simp only []
  by_cases hlen :
      0 < (add_images cs hasModel oracle ⟨[], none⟩ imgs).1.images.length
  · rw [if_pos hlen, if_pos Option.isSome_some]
    unfold activeInv
    constructor
    · intro _
      rw [← List.length_pos, initActive_length]
      exact hlen
    · intro _
      rw [initActive_current]
      rfl
  · rw [if_neg hlen, if_neg (by simp)]
    unfold activeInv
    have himgs : (add_images cs hasModel oracle ⟨[], none⟩ imgs).1.images = [] := by
      rw [← List.length_eq_zero]
      omega
    constructor
    · intro hx
      simp at hx
    · intro hx
      exact absurd himgs hx

lemma applyImgOp_inv {cs : List Cls} {hasModel : Bool}
    {oracle : SImg → Option (List DetRes)} {s s' : ImageStore} {op : ImgOp}
    (hinv : activeInv s)
    (h : applyImgOp cs hasModel oracle s op = some s') : activeInv s' := by
  cases op with
  | add imgs =>
    simp only [applyImgOp] at h
    cases h
    exact add_images_inv cs hasModel oracle s imgs hinv
  | del uuids =>
    simp only [applyImgOp] at h
    exact delete_images_inv hinv h
  | next =>
    simp only [applyImgOp] at h
    exact nextImage_inv h
  | jump u =>
    simp only [applyImgOp] at h
    exact jump_to_inv h

lemma runImgOps_inv {cs : List Cls} {hasModel : Bool}
    {oracle : SImg → Option (List DetRes)} {s s' : ImageStore}
    {ops : List ImgOp} (hinv : activeInv s)
    (h : runImgOps cs hasModel oracle s ops = some s') : activeInv s' := by
  induction ops generalizing s with
  | nil =>
    simp only [runImgOps] at h
    cases h
    exact hinv
  | cons op ops ih =>
    simp only [runImgOps] at h
    cases hm : applyImgOp cs hasModel oracle s op with
    | none => rw [hm] at h; simp at h
    | some s1 =>
      rw [hm] at h
      simp only [Option.some_bind] at h
      exact ih (applyImgOp_inv hinv hm) h

/-- C2: for every `ImageStore` (built by the constructor) and every sequence
of `add_images`, `delete_images`, `next` and `jump_to` operations that
complete without raising, the active identity is non-null if and only if the
store contains at least one image. -/
theorem image_store_active_iff_nonempty (cs : List Cls) (hasModel : Bool)
    (oracle : SImg → Option (List DetRes)) (imgs : List SImg)
    (ops : List ImgOp) (s' : ImageStore)
    (h : runImgOps cs hasModel oracle
      (mkImageStore cs hasModel oracle imgs) ops = some s') :
    s'.current_uuid.isSome ↔ s'.images ≠ [] :=
  runImgOps_inv (mkImageStore_inv cs hasModel oracle imgs) h

/-- Witness for C2: a concrete run that adds two images to an initially
empty store (making the first active), deletes both (nulling the active
identity), then adds one image again (making it active). -/
theorem image_store_active_iff_nonempty_witness :
    runImgOps [] false (fun _ => none)
        (mkImageStore [] false (fun _ => none) [])
        [.add [⟨1, "a", "a", [], [], false, false, true⟩,
               ⟨2, "b", "b", [], [], false, false, true⟩],
         .del [1, 2],
         .add [⟨3, "c", "c", [], [], false, false, true⟩]]
      = some ⟨[⟨3, "c", "c", [], [], false, false, true⟩], some 3⟩ ∧
    ((⟨[⟨3, "c", "c", [], [], false, false, true⟩],
        some 3⟩ : ImageStore).current_uuid.isSome
      ↔ (⟨[⟨3, "c", "c", [], [], false, false, true⟩],
        some 3⟩ : ImageStore).images ≠ []) :=
  ⟨by decide,
    image_store_active_iff_nonempty [] false (fun _ => none) []
      [.add [⟨1, "a", "a", [], [], false, false, true⟩,
             ⟨2, "b", "b", [], [], false, false, true⟩],
       .del [1, 2],
       .add [⟨3, "c", "c", [], [], false, false, true⟩]]
      ⟨[⟨3, "c", "c", [], [], false, false, true⟩], some 3⟩
      (by decide)⟩

/-! ## Claim C9: add_images on a non-empty store is a pure append -/

/-- C9: for every non-empty `ImageStore`, `add_images` appends the new
images at the end in the given order and returns their identities, leaving
the active identity and all previously stored images (and the new images
themselves) unchanged; in particular no activation and no eager
initialization happens, those being reserved for the
previously-empty-store case. -/
theorem add_images_nonempty_frame (cs : List Cls) (hasModel : Bool)
    (oracle : SImg → Option (List DetRes)) (s : ImageStore)
    (imgs : List SImg) (hne : s.images ≠ []) :
    add_images cs hasModel oracle s imgs
      = ({ s with images := s.images ++ imgs },
         imgs.map (fun im => im.uuid)) := by
  have hcond : (s.images.isEmpty
      && !((imgs.map (fun im => im.uuid)).isEmpty)) = false := by
    have h1 : s.images.isEmpty = false := List.isEmpty_eq_false.mpr hne
    rw [h1]
    rfl
  unfold add_images
  rw [hcond]
  simp

/-- Witness for C9: adding two images to a concrete one-image store appends
them, keeps the active identity, and returns the new uuids. -/
theorem add_images_nonempty_frame_witness :
    ((⟨[⟨1, "a", "a", [], [], false, false, false⟩], some 1⟩ :
        ImageStore).images ≠ []) ∧
    add_images [] true (fun _ => none)
        ⟨[⟨1, "a", "a", [], [], false, false, false⟩], some 1⟩
        [⟨2, "b", "b", [], [], false, false, false⟩,
         ⟨3, "c", "c", [], [], false, false, false⟩]
      = (⟨[⟨1, "a", "a", [], [], false, false, false⟩,
           ⟨2, "b", "b", [], [], false, false, false⟩,
           ⟨3, "c", "c", [], [], false, false, false⟩], some 1⟩, [2, 3]) :=
  ⟨by decide,
    by
      exact add_images_nonempty_frame [] true (fun _ => none)
        ⟨[⟨1, "a", "a", [], [], false, false, false⟩], some 1⟩
        [⟨2, "b", "b", [], [], false, false, false⟩,
         ⟨3, "c", "c", [], [], false, false, false⟩]
        (by decide)⟩

/-! ## Claim C4: delete_images re-points the active identity -/

/-- The claim's description of the final active identity after
`delete_images` deletes the active image `c`: the first surviving image
after `c` in sequence order (the step-by-step `current_idx + 1` choice), or
the last surviving image before `c` when everything after it is deleted
(the `current_idx - 1` fallback at the end of the list), or `None` when no
image survives. -/
def specNewActive (images : List SImg) (c : Nat) (dels : List Nat) :
    Option Nat :=
  match (images.drop (images.findIdx (fun im => im.uuid == c) + 1)).filter
      (fun im => !(dels.contains im.uuid)) with
  | a :: _ => some a.uuid
  | [] =>
      match ((images.take (images.findIdx (fun im => im.uuid == c))).filter
          (fun im => !(dels.contains im.uuid))).getLast? with
      | some b => some b.uuid
      | none => none

lemma contains_filter_ne {u c : Nat} (dels : List Nat) (h : u ≠ c) :
    ((dels.filter (fun v => v ≠ c)).contains u) = dels.contains u := by
  by_cases hm : u ∈ dels
  · have h1 : u ∈ dels.filter (fun v => v ≠ c) :=
      List.mem_filter.mpr ⟨hm, by simp [h]⟩
    simp [hm, h1, h]
  · have h1 : u ∉ dels.filter (fun v => v ≠ c) :=
      fun hx => hm (List.mem_filter.mp hx).1
    simp [hm, h1]

lemma filter_contains_congr {l : List SImg} {dels : List Nat} {c : Nat}
    (h : ∀ im ∈ l, im.uuid ≠ c) :
    l.filter (fun im => !((dels.filter (fun u => u ≠ c)).contains im.uuid))
      = l.filter (fun im => !(dels.contains im.uuid)) :=
  List.filter_congr (fun im him => by rw [contains_filter_ne dels (h im him)])

lemma exists_first_uuid_decomp {c : Nat} {l : List SImg}
    (h : c ∈ l.map (fun im => im.uuid)) :
    ∃ L1 x L2, l = L1 ++ x :: L2 ∧ x.uuid = c ∧ ∀ y ∈ L1, y.uuid ≠ c := by
  induction l with
  | nil => simp at h
  | cons a t ih =>
    by_cases ha : a.uuid = c
    · exact ⟨[], a, t, by simp, ha, by simp⟩
    · have hmem : c ∈ t.map (fun im => im.uuid) := by
        simp only [List.map_cons, List.mem_cons] at h
        rcases h with h | h
        · exact absurd h.symm ha
        · exact h
      obtain ⟨L1, x, L2, hd, hx, hL⟩ := ih hmem
      refine ⟨a :: L1, x, L2, by rw [hd]; rfl, hx, ?_⟩
      intro y hy
      rcases List.mem_cons.mp hy with rfl | hy'
      · exact ha
      · exact hL y hy'

lemma findIdx_first {p : SImg → Bool} :
    ∀ (L1 : List SImg) (x : SImg) (L2 : List SImg),
      (∀ y ∈ L1, p y = false) → p x = true →
      (L1 ++ x :: L2).findIdx p = L1.length := by
  intro L1
  induction L1 with
  | nil =>
    intro x L2 _ hx
    simp [List.findIdx_cons, hx]
  | cons a t ih =>
    intro x L2 hall hx
    have ha : p a = false := hall a (by simp)
    simp [List.findIdx_cons, ha, ih x L2 (fun y hy => hall y (by simp [hy])) hx]

lemma eraseIdx_at_length :
    ∀ (L1 : List SImg) (x : SImg) (L2 : List SImg),
      (L1 ++ x :: L2).eraseIdx L1.length = L1 ++ L2 := by
  intro L1
  induction L1 with
  | nil => intro x L2; rfl
  | cons a t ih =>
    intro x L2
    simp only [List.cons_append, List.length_cons, List.eraseIdx_cons_succ,
      ih x L2]

lemma getD_at_length (L1 : List SImg) (x : SImg) (L2 : List SImg) (d : SImg) :
    (L1 ++ x :: L2).getD L1.length d = x := by
  rw [List.getD_append_right _ _ _ _ (le_refl _)]
  simp

lemma getD_at_length_succ (L1 : List SImg) (x h2 : SImg) (t2 : List SImg)
    (d : SImg) :
    (L1 ++ x :: h2 :: t2).getD (L1.length + 1) d = h2 := by
  rw [List.getD_append_right _ _ _ _ (by omega)]
  have harith : L1.length + 1 - L1.length = 1 := by omega
  rw [harith]
  rfl

lemma drop_decomp (L1 : List SImg) (x : SImg) (L2 : List SImg) :
    (L1 ++ x :: L2).drop (L1.length + 1) = L2 := by
  rw [List.drop_append 1]
  rfl

lemma nodup_uuid_decomp {L1 : List SImg} {x : SImg} {L2 : List SImg}
    (h : ((L1 ++ x :: L2).map (fun im => im.uuid)).Nodup) :
    ((L1 ++ L2).map (fun im => im.uuid)).Nodup ∧
    (∀ y ∈ L2, y.uuid ≠ x.uuid) ∧
    (∀ y ∈ L1, y.uuid ≠ x.uuid) ∧
    (∀ y ∈ L1, ∀ z ∈ L2, y.uuid ≠ z.uuid) := by
  rw [List.map_append, List.map_cons, List.nodup_append] at h
  obtain ⟨h1, h2, h3⟩ := h
  rw [List.nodup_cons] at h2
  refine ⟨?_, ?_, ?_, ?_⟩
  · rw [List.map_append, List.nodup_append]
    refine ⟨h1, h2.2, ?_⟩
    intro u hu hv
    exact h3 hu (by simp only [List.mem_cons]; right; exact hv)
  · intro y hy heq
    exact h2.1 (by rw [← heq]; exact List.mem_map.mpr ⟨y, hy, rfl⟩)
  · intro y hy heq
    exact h3 (List.mem_map.mpr ⟨y, hy, rfl⟩)
      (by simp only [List.mem_cons]; left; exact heq)
  · intro y hy z hz heq
    refine h3 (List.mem_map.mpr ⟨y, hy, rfl⟩) ?_
    simp only [List.mem_cons]
    right
    rw [heq]
    exact List.mem_map.mpr ⟨z, hz, rfl⟩

lemma specNewActive_decomp (L1 : List SImg) (x : SImg) (L2 : List SImg)
    (dels : List Nat) (hL1 : ∀ y ∈ L1, y.uuid ≠ x.uuid) :
    specNewActive (L1 ++ x :: L2) x.uuid dels =
      match L2.filter (fun im => !(dels.contains im.uuid)) with
      | a :: _ => some a.uuid
      | [] =>
          match (L1.filter (fun im => !(dels.contains im.uuid))).getLast? with
          | some b => some b.uuid
          | none => none := by
  unfold specNewActive
  have hfi : (L1 ++ x :: L2).findIdx (fun im => im.uuid == x.uuid)
      = L1.length :=
    findIdx_first L1 x L2 (fun y hy => by simp [hL1 y hy]) (by simp)
  rw [hfi, drop_decomp, List.take_left]

lemma delete_images_go_spec :
    ∀ (fuel : Nat) (dels : List Nat) (s : ImageStore) (c : Nat)
      (s' : ImageStore),
      dels.length < fuel →
      (s.images.map (fun im => im.uuid)).Nodup →
      s.current_uuid = some c →
      c ∈ s.images.map (fun im => im.uuid) →
      (∀ u ∈ dels, u ∈ s.images.map (fun im => im.uuid)) →
      dels.Nodup →
      delete_images_go fuel s dels = some s' →
      s'.images = s.images.filter (fun im => !(dels.contains im.uuid)) ∧
      s'.current_uuid
        = if c ∈ dels then specNewActive s.images c dels else some c := by
  intro fuel
  induction fuel with
  | zero => intro dels s c s' hf; omega
  | succ fuel ih =>
    intro dels s c s' hf hnd hcur hcm hall hdnd h
    simp only [delete_images_go] at h
    split at h
    · simp at h
    · split at h
      · simp at h
      · split at h
        · next c0 hc0 =>
          rw [hcur] at hc0
          obtain rfl : c = c0 := Option.some.inj hc0
          split at h
          · next hcond =>
            obtain ⟨hcdel, hlen⟩ := hcond
            obtain ⟨L1, x, L2, hdec, hxc, hL1x⟩ := exists_first_uuid_decomp hcm
            rw [hdec] at h hnd hall hlen ⊢
            have hfi : (L1 ++ x :: L2).findIdx (fun im => im.uuid == c)
                = L1.length :=
              findIdx_first L1 x L2 (fun y hy => by simp [hL1x y hy])
                (by simp [hxc])
            rw [hfi] at h
            obtain ⟨hndLL, hL2x, _, hcross⟩ := nodup_uuid_decomp hnd
            have hxcont : dels.contains x.uuid = true := by
              rw [hxc]
              exact List.elem_iff.mpr hcdel
            have hfuel' : (dels.filter (fun u => u ≠ c)).length < fuel := by
              have := filter_ne_length_lt hcdel
              omega
            have hdnd' : (dels.filter (fun u => u ≠ c)).Nodup :=
              hdnd.filter _
            cases L2 with
            | nil =>
              have hlen1 : ¬ (L1.length < (L1 ++ x :: []).length - 1) := by
                simp
              rw [if_neg hlen1] at h
              rw [eraseIdx_at_length, List.append_nil] at h
              have hL1ne : L1 ≠ [] := by
                intro h0
                rw [h0] at hlen
                simp at hlen
              obtain ⟨M, z, hMz⟩ : ∃ M z, L1 = M ++ [z] := by
                rcases List.eq_nil_or_concat L1 with h0 | ⟨M, z, hz⟩
                · exact absurd h0 hL1ne
                · exact ⟨M, z, by rw [hz, List.concat_eq_append]⟩
              have hgd : (L1 ++ x :: []).getD (L1.length - 1) dImg = z := by
                rw [hMz]
                have harith : (M ++ [z]).length - 1 = M.length := by simp
                rw [harith, List.append_assoc]
                exact getD_at_length M z ([] ++ x :: []) dImg
              rw [hgd] at h
              have hzL1 : z ∈ L1 := by rw [hMz]; simp
              have hzne : z.uuid ≠ c := hL1x z hzL1
              have hndL1 : (L1.map (fun im => im.uuid)).Nodup := by
                rw [List.append_nil] at hndLL
                exact hndLL
              have hall' : ∀ u ∈ dels.filter (fun u => u ≠ c),
                  u ∈ L1.map (fun im => im.uuid) := by
                intro u hu
                obtain ⟨hud, hune⟩ := List.mem_filter.mp hu
                have hune' : u ≠ c := by simpa using hune
                have hmem := hall u hud
                simp only [List.map_append, List.map_cons, List.map_nil,
                  List.mem_append, List.mem_cons, List.not_mem_nil,
                  or_false] at hmem
                rcases hmem with hm | hm
                · exact hm
                · exact absurd (hm.trans hxc) hune'
              obtain ⟨hImgs, hCur⟩ := ih (dels.filter (fun u => u ≠ c))
                ⟨L1, some z.uuid⟩ z.uuid s' hfuel' hndL1 rfl
                (List.mem_map.mpr ⟨z, hzL1, rfl⟩) hall' hdnd' h
              have hImgs' : s'.images = L1.filter
                  (fun im => !((dels.filter (fun u => u ≠ c)).contains
                    im.uuid)) := hImgs
              have hCur' : s'.current_uuid =
                  if z.uuid ∈ dels.filter (fun u => u ≠ c) then
                    specNewActive L1 z.uuid (dels.filter (fun u => u ≠ c))
                  else some z.uuid := hCur
              constructor
              · rw [hImgs', filter_contains_congr hL1x, List.filter_append]
                have hxf : (x :: []).filter
                    (fun im => !(dels.contains im.uuid)) = [] := by
                  simp [List.filter_cons, hxc, hcdel]
                rw [hxf, List.append_nil]
              · rw [hCur', if_pos hcdel]
                have hrhs := specNewActive_decomp L1 x [] dels
                  (fun y hy => by rw [hxc]; exact hL1x y hy)
                rw [hxc] at hrhs
                rw [hrhs]
                simp only [List.filter_nil]
                have hMne : ∀ y ∈ M, y.uuid ≠ c := by
                  intro y hy
                  apply hL1x y
                  rw [hMz]
                  exact List.mem_append.mpr (Or.inl hy)
                by_cases hz : z.uuid ∈ dels
                · have hzc : dels.contains z.uuid = true :=
                    List.elem_iff.mpr hz
                  have hz' : z.uuid ∈ dels.filter (fun u => u ≠ c) :=
                    List.mem_filter.mpr ⟨hz, by simp [hzne]⟩
                  rw [if_pos hz']
                  have hMzn : ∀ y ∈ M, y.uuid ≠ z.uuid := by
                    have hnd1 : ((M ++ z :: []).map
                        (fun im => im.uuid)).Nodup := by
                      rw [← hMz]
                      exact hndL1
                    exact (nodup_uuid_decomp hnd1).2.2.1
                  have hlhs := specNewActive_decomp M z []
                    (dels.filter (fun u => u ≠ c)) hMzn
                  rw [hMz, hlhs]
                  simp only [List.filter_nil]
                  rw [filter_contains_congr hMne, List.filter_append]
                  have hzf : (z :: []).filter
                      (fun im => !(dels.contains im.uuid)) = [] := by
                    simp [List.filter_cons, hz]
                  rw [hzf, List.append_nil]
                · have hzc : dels.contains z.uuid = false := by
                    by_contra hxx
                    rw [Bool.not_eq_false] at hxx
                    exact hz (List.elem_iff.mp hxx)
                  have hz' : z.uuid ∉ dels.filter (fun u => u ≠ c) :=
                    fun hxm => hz (List.mem_filter.mp hxm).1
                  rw [if_neg hz']
                  rw [hMz, List.filter_append]
                  have hzf : (z :: []).filter
                      (fun im => !(dels.contains im.uuid)) = z :: [] := by
                    simp [List.filter_cons, hz]
                  rw [hzf, List.getLast?_concat]
            | cons h2 t2 =>
              have hni : L1.length < (L1 ++ x :: h2 :: t2).length - 1 := by
                simp only [List.length_append, List.length_cons]
                omega
              rw [if_pos hni, eraseIdx_at_length, getD_at_length_succ] at h
              have hh2ne : h2.uuid ≠ c := by
                rw [← hxc]
                exact hL2x h2 (by simp)
              have hall' : ∀ u ∈ dels.filter (fun u => u ≠ c),
                  u ∈ (L1 ++ h2 :: t2).map (fun im => im.uuid) := by
                intro u hu
                obtain ⟨hud, hune⟩ := List.mem_filter.mp hu
                have hune' : u ≠ c := by simpa using hune
                have hmem := hall u hud
                simp only [List.map_append, List.map_cons, List.mem_append,
                  List.mem_cons] at hmem ⊢
                rcases hmem with hm | hm
                · exact Or.inl hm
                · rcases hm with hm | hm
                  · exact absurd (hm.trans hxc) hune'
                  · exact Or.inr hm
              obtain ⟨hImgs, hCur⟩ := ih (dels.filter (fun u => u ≠ c))
                ⟨L1 ++ h2 :: t2, some h2.uuid⟩ h2.uuid s' hfuel' hndLL rfl
                (by simp) hall' hdnd' h
              have hImgs' : s'.images = (L1 ++ h2 :: t2).filter
                  (fun im => !((dels.filter (fun u => u ≠ c)).contains
                    im.uuid)) := hImgs
              have hCur' : s'.current_uuid =
                  if h2.uuid ∈ dels.filter (fun u => u ≠ c) then
                    specNewActive (L1 ++ h2 :: t2) h2.uuid
                      (dels.filter (fun u => u ≠ c))
                  else some h2.uuid := hCur
              have hmemne : ∀ im ∈ L1 ++ h2 :: t2, im.uuid ≠ c := by
                intro im him
                rcases List.mem_append.mp him with hm | hm
                · exact hL1x im hm
                · rw [← hxc]
                  exact hL2x im hm
              have ht2ne : ∀ im ∈ t2, im.uuid ≠ c := by
                intro im him
                rw [← hxc]
                exact hL2x im (by simp [him])
              constructor
              · rw [hImgs', filter_contains_congr hmemne,
                  List.filter_append, List.filter_append]
                have hxf : (x :: h2 :: t2).filter
                    (fun im => !(dels.contains im.uuid))
                    = (h2 :: t2).filter
                      (fun im => !(dels.contains im.uuid)) := by
                  simp [List.filter_cons, hxc, hcdel]
                rw [hxf]
              · rw [hCur', if_pos hcdel]
                have hrhs := specNewActive_decomp L1 x (h2 :: t2) dels
                  (fun y hy => by rw [hxc]; exact hL1x y hy)
                rw [hxc] at hrhs
                rw [hrhs]
                by_cases hz : h2.uuid ∈ dels
                · have hzc : dels.contains h2.uuid = true :=
                    List.elem_iff.mpr hz
                  have hz' : h2.uuid ∈ dels.filter (fun u => u ≠ c) :=
                    List.mem_filter.mpr ⟨hz, by simp [hh2ne]⟩
                  rw [if_pos hz']
                  have hL1h2 : ∀ y ∈ L1, y.uuid ≠ h2.uuid :=
                    fun y hy => hcross y hy h2 (by simp)
                  have hlhs := specNewActive_decomp L1 h2 t2
                    (dels.filter (fun u => u ≠ c)) hL1h2
                  rw [hlhs]
                  rw [filter_contains_congr ht2ne,
                    filter_contains_congr hL1x]
                  have hh2f : (h2 :: t2).filter
                      (fun im => !(dels.contains im.uuid))
                      = t2.filter (fun im => !(dels.contains im.uuid)) := by
                    simp [List.filter_cons, hz]
                  rw [hh2f]
                · have hzc : dels.contains h2.uuid = false := by
                    by_contra hxx
                    rw [Bool.not_eq_false] at hxx
                    exact hz (List.elem_iff.mp hxx)
                  have hz' : h2.uuid ∉ dels.filter (fun u => u ≠ c) :=
                    fun hxm => hz (List.mem_filter.mp hxm).1
                  rw [if_neg hz']
                  have hh2f : (h2 :: t2).filter
                      (fun im => !(dels.contains im.uuid))
                      = h2 :: t2.filter
                        (fun im => !(dels.contains im.uuid)) := by
                    simp [List.filter_cons, hz]
                  rw [hh2f]
          · next hcond =>
            cases h
            refine ⟨rfl, ?_⟩
            show (if (s.images.filter
                (fun im => !(dels.contains im.uuid))).isEmpty then none
              else s.current_uuid)
              = if c ∈ dels then specNewActive s.images c dels else some c
            by_cases hcd : c ∈ dels
            · rw [if_pos hcd]
              have hlen1 : ¬ 1 < s.images.length :=
                fun hl => hcond ⟨hcd, hl⟩
              obtain ⟨L1, x, L2, hdec, hxc, hL1x⟩ :=
                exists_first_uuid_decomp hcm
              have hL1e : L1 = [] := by
                rw [hdec] at hlen1
                simp only [List.length_append, List.length_cons,
                  not_lt] at hlen1
                rw [← List.length_eq_zero]
                omega
              have hL2e : L2 = [] := by
                rw [hdec] at hlen1
                simp only [List.length_append, List.length_cons,
                  not_lt] at hlen1
                rw [← List.length_eq_zero]
                omega
              subst hL1e
              subst hL2e
              rw [hdec]
              have hxcont : dels.contains x.uuid = true := by
                rw [hxc]
                exact List.elem_iff.mpr hcd
              have hrhs0 := specNewActive_decomp [] x [] dels (by simp)
              rw [hxc] at hrhs0
              have hrhs : specNewActive ([] ++ x :: []) c dels = none := hrhs0
              rw [hrhs]
              have hfe : (([] : List SImg) ++ x :: []).filter
                  (fun im => !(dels.contains im.uuid)) = [] := by
                simp [List.filter_cons, hxc, hcd]
              rw [hfe]
              rfl
            · rw [if_neg hcd]
              obtain ⟨L1, x, L2, hdec, hxc, _⟩ :=
                exists_first_uuid_decomp hcm
              have hxcont : dels.contains x.uuid = false := by
                by_contra hxx
                rw [Bool.not_eq_false] at hxx
                rw [hxc] at hxx
                exact hcd (List.elem_iff.mp hxx)
              have hxmem : x ∈ s.images.filter
                  (fun im => !(dels.contains im.uuid)) :=
                List.mem_filter.mpr ⟨by rw [hdec]; simp, by simp [hxc, hcd]⟩
              have hne : (s.images.filter
                  (fun im => !(dels.contains im.uuid))).isEmpty = false := by
                rw [List.isEmpty_eq_false]
                intro hnil
                rw [hnil] at hxmem
                simp at hxmem
              rw [hne]
              simp only [Bool.false_eq_true, if_false]
              exact hcur
        · next hc0 =>
          rw [hcur] at hc0
          simp at hc0

/-- C4: when `delete_images` is given a set of identities that includes the
active one and more than one image is stored, it deletes exactly the listed
images and re-points the active identity step by step (to the image after
the deleted active one, or the one before it when it was last, repeating
while the chosen image is itself pending deletion), so the final active
identity is the first surviving image after the deleted active image in
sequence order, else the last surviving image before it, else `None`. -/
theorem delete_images_repoints_active (s : ImageStore) (c : Nat)
    (dels : List Nat) (s' : ImageStore)
    (hnd : (s.images.map (fun im => im.uuid)).Nodup)
    (hcur : s.current_uuid = some c)
    (hcm : c ∈ s.images.map (fun im => im.uuid))
    (hall : ∀ u ∈ dels, u ∈ s.images.map (fun im => im.uuid))
    (hdnd : dels.Nodup)
    (hcdel : c ∈ dels)
    (_hlen : 1 < s.images.length)
    (h : delete_images s dels = some s') :
    s'.images = s.images.filter (fun im => !(dels.contains im.uuid)) ∧
    s'.current_uuid = specNewActive s.images c dels := by
  obtain ⟨h1, h2⟩ := delete_images_go_spec (dels.length + 1) dels s c s'
    (by omega) hnd hcur hcm hall hdnd h
  exact ⟨h1, by rw [h2, if_pos hcdel]⟩

/-- Concrete four-image store contents used by the C4 witness. -/
def c4imgs : List SImg :=
  [⟨1, "a", "a", [], [], false, false, true⟩,
   ⟨2, "b", "b", [], [], false, false, true⟩,
   ⟨3, "c", "c", [], [], false, false, true⟩,
   ⟨4, "d", "d", [], [], false, false, true⟩]

/-- Witness for C4: deleting the active image `2` together with its
successor `3` from the store `[1, 2, 3, 4]` keeps `[1, 4]` and re-points the
active identity to `4`, the first survivor after `2`. -/
theorem delete_images_repoints_active_witness :
    delete_images ⟨c4imgs, some 2⟩ [2, 3]
      = some ⟨[⟨1, "a", "a", [], [], false, false, true⟩,
               ⟨4, "d", "d", [], [], false, false, true⟩], some 4⟩ ∧
    ((⟨[⟨1, "a", "a", [], [], false, false, true⟩,
        ⟨4, "d", "d", [], [], false, false, true⟩], some 4⟩ :
      ImageStore).images
      = c4imgs.filter (fun im => !(([2, 3] : List Nat).contains im.uuid))) ∧
    ((⟨[⟨1, "a", "a", [], [], false, false, true⟩,
        ⟨4, "d", "d", [], [], false, false, true⟩], some 4⟩ :
      ImageStore).current_uuid
      = specNewActive c4imgs 2 [2, 3]) :=
  ⟨by decide,
    (delete_images_repoints_active ⟨c4imgs, some 2⟩ 2 [2, 3]
      ⟨[⟨1, "a", "a", [], [], false, false, true⟩,
        ⟨4, "d", "d", [], [], false, false, true⟩], some 4⟩
      (by decide) (by decide) (by decide) (by decide) (by decide)
      (by decide) (by decide) (by decide)).1,
    (delete_images_repoints_active ⟨c4imgs, some 2⟩ 2 [2, 3]
      ⟨[⟨1, "a", "a", [], [], false, false, true⟩,
        ⟨4, "d", "d", [], [], false, false, true⟩], some 4⟩
      (by decide) (by decide) (by decide) (by decide) (by decide)
      (by decide) (by decide) (by decide)).2⟩

/-! ## annotation export: CSV (claim C6) -/

/-- `ClassesStore.get_name` (`classes_store.py` lines 154-156): the name of
the first class with the given uid; `none` models the `StopIteration` raised
when no class matches. -/
def get_name (cs : List Cls) (uid : Int) : Option String :=
  (cs.find? (fun c => c.uid == uid)).map (fun c => c.name)

/-- Python's `center_x, center_y, width, height = box` unpacking; `none`
models the `ValueError` raised when the box does not have four entries. -/
def unpack4 : List ℚ → Option (ℚ × ℚ × ℚ × ℚ)
  | [a, b, c, d] => some (a, b, c, d)
  | _ => none

/-- The literal whitespace that the f-string line continuation inside
`_export_csv` (`annotation_export.py` lines 86-87) inserts between the
delimiter following `center_x` and the `center_y` value: the space before
the backslash plus the 20-space indentation of the continued line. -/
def csvContSpaces : String := "                     "

/-- One data row written by `process` inside `_export_csv`
(`annotation_export.py` lines 80-88), without the trailing newline. -/
def csvRow (cs : List Cls) (delim split path name : String)
    (box : List ℚ) (label_uid : Int) : Option String :=
  (get_name cs label_uid).bind (fun label =>
    (unpack4 box).map (fun q =>
      path ++ delim ++ name ++ delim ++ toString q.1 ++ delim
        ++ csvContSpaces ++ toString q.2.1 ++ delim ++ toString q.2.2.1
        ++ delim ++ toString q.2.2.2 ++ delim ++ label ++ delim ++ split))

/-- The inner `for box, label_uid in zip(...)` loop of `process`
(`annotation_export.py` lines 82-88), one written line per element. -/
def csvRowsGo (cs : List Cls) (delim split path name : String) :
    List (List ℚ × Int) → Option (List String)
  | [] => some []
  | bl :: rest =>
      (csvRow cs delim split path name bl.1 bl.2).bind (fun row =>
        (csvRowsGo cs delim split path name rest).map
          (fun more => row :: more))

/-- The `process` helper of `_export_csv` (`annotation_export.py` lines
80-88): one data row per bounding box of each image, in order. -/
def processCsv (cs : List Cls) (delim split : String) :
    List SImg → Option (List String)
  | [] => some []
  | img :: rest =>
      (csvRowsGo cs delim split img.path img.name
        (img.boxes.zip img.label_uids)).bind (fun rows =>
        (processCsv cs delim split rest).map (fun more => rows ++ more))

/-- The header line written by `_export_csv` (`annotation_export.py`
lines 91-93). -/
def csvHeader (delim : String) : String :=
  "path" ++ delim ++ "file_name" ++ delim ++ "center_x" ++ delim
    ++ "center_y" ++ delim ++ "width" ++ delim ++ "height" ++ delim
    ++ "label" ++ delim ++ "split"

/-- `_export_csv` (`annotation_export.py` lines 57-95), modelled as the list
of lines written to the output file: raises `ValueError` (here `none`) when
the path does not end in `.csv`; otherwise writes the header line, then one
row per bounding box of the train images (split `train`), then one row per
bounding box of the test images (split `test`). -/
def exportCsv (path : String) (train test : List SImg) (cs : List Cls)
    (delim : String) : Option (List String) :=
  if !(path.endsWith ".csv") then none
  else
    (processCsv cs delim "train" train).bind (fun tr =>
      (processCsv cs delim "test" test).map (fun te =>
        csvHeader delim :: (tr ++ te)))

/-- The claim's description of one data row: the eight fields `path`,
`file_name`, `center_x`, `center_y`, `width`, `height`, `label` and `split`
joined by the delimiter (with the whitespace the source's line continuation
adds before `center_y`). -/
def csvRowFields (delim path name cx cy w ht label split : String) : String :=
  path ++ delim ++ name ++ delim ++ cx ++ delim ++ csvContSpaces ++ cy
    ++ delim ++ w ++ delim ++ ht ++ delim ++ label ++ delim ++ split

/-- The claim's description of the data rows of one split: exactly one row
per bounding box across the images (an image with zero boxes contributes
zero rows), with the label resolved to its class name. -/
def csvRowsSpec (cs : List Cls) (split : String) (imgs : List SImg) :
    List String :=
  imgs.flatMap (fun im => (im.boxes.zip im.label_uids).map (fun bl =>
    csvRowFields ";" im.path im.name (toString (bl.1.getD 0 0))
      (toString (bl.1.getD 1 0)) (toString (bl.1.getD 2 0))
      (toString (bl.1.getD 3 0)) ((get_name cs bl.2).getD "") split))

lemma unpack4_of_length {b : List ℚ} (h : b.length = 4) :
    unpack4 b = some (b.getD 0 0, b.getD 1 0, b.getD 2 0, b.getD 3 0) := by
  cases b with
  | nil => simp at h
  | cons a1 t1 =>
    cases t1 with
    | nil => simp at h
    | cons a2 t2 =>
      cases t2 with
      | nil => simp at h
      | cons a3 t3 =>
        cases t3 with
        | nil => simp at h
        | cons a4 t4 =>
          have ht4 : t4 = [] := by
            simp only [List.length_cons] at h
            rw [← List.length_eq_zero]
            omega
          subst ht4
          rfl

lemma csvRowsGo_spec {cs : List Cls} {split path name : String}
    {l : List (List ℚ × Int)}
    (h : ∀ bl ∈ l, bl.1.length = 4 ∧ (get_name cs bl.2).isSome) :
    csvRowsGo cs ";" split path name l
      = some (l.map (fun bl =>
          csvRowFields ";" path name (toString (bl.1.getD 0 0))
            (toString (bl.1.getD 1 0)) (toString (bl.1.getD 2 0))
            (toString (bl.1.getD 3 0)) ((get_name cs bl.2).getD "") split)) := by
  induction l with
  | nil => rfl
  | cons bl rest ih =>
    obtain ⟨hb, hn⟩ := h bl (by simp)
    obtain ⟨label, hlabel⟩ := Option.isSome_iff_exists.mp hn
    have hrow : csvRow cs ";" split path name bl.1 bl.2
        = some (csvRowFields ";" path name (toString (bl.1.getD 0 0))
            (toString (bl.1.getD 1 0)) (toString (bl.1.getD 2 0))
            (toString (bl.1.getD 3 0)) ((get_name cs bl.2).getD "") split) := by
      unfold csvRow
      rw [hlabel, unpack4_of_length hb]
      simp only [Option.some_bind, Option.map_some']
      unfold csvRowFields
      rfl
    simp only [csvRowsGo, hrow, Option.some_bind,
      ih (fun x hx => h x (by simp [hx])), Option.map_some', List.map_cons]

lemma processCsv_spec {cs : List Cls} {split : String} {imgs : List SImg}
    (h : ∀ img ∈ imgs,
      (∀ b ∈ img.boxes, b.length = 4) ∧
      (∀ u ∈ img.label_uids, (get_name cs u).isSome)) :
    processCsv cs ";" split imgs = some (csvRowsSpec cs split imgs) := by
  induction imgs with
  | nil => rfl
  | cons img rest ih =>
    obtain ⟨hb, hu⟩ := h img (by simp)
    have hgo := @csvRowsGo_spec cs split img.path img.name
      (img.boxes.zip img.label_uids)
      (fun bl hbl => ⟨hb bl.1 (List.of_mem_zip hbl).1, hu bl.2 (List.of_mem_zip hbl).2⟩)
    simp only [processCsv, hgo, Option.some_bind,
      ih (fun x hx => h x (by simp [hx])), Option.map_some']
    unfold csvRowsSpec
    rw [List.flatMap_cons]

lemma csvRowsSpec_length {cs : List Cls} {split : String} {imgs : List SImg}
    (h : ∀ img ∈ imgs, img.boxes.length = img.label_uids.length) :
    (csvRowsSpec cs split imgs).length
      = (imgs.map (fun im => im.boxes.length)).sum := by
  induction imgs with
  | nil => rfl
  | cons img rest ih =>
    unfold csvRowsSpec
    rw [List.flatMap_cons]
    rw [List.length_append, List.length_map, List.length_zip,
      h img (by simp), Nat.min_self]
    rw [List.map_cons, List.sum_cons]
    rw [← h img (by simp)]
    have hrest := ih (fun x hx => h x (by simp [hx]))
    unfold csvRowsSpec at hrest
    rw [hrest]

/-- C6: for every CSV export, the output is the header line followed by
exactly one data row per bounding box across all exported images (zero-box
images contribute zero rows): first the train images with split `train`,
then the test images with split `test`, each row carrying the eight
;-separated fields with the label resolved to the class name; and the call
raises when the output path does not end in `.csv`.  Well-formedness of the
input (four box coordinates, resolvable labels, boxes and labels of equal
length) is assumed. -/
theorem export_csv_structure (path : String) (train test : List SImg)
    (cs : List Cls)
    (hwf : ∀ img ∈ train ++ test,
      img.boxes.length = img.label_uids.length ∧
      (∀ b ∈ img.boxes, b.length = 4) ∧
      (∀ u ∈ img.label_uids, (get_name cs u).isSome)) :
    exportCsv path train test cs ";"
      = (if path.endsWith ".csv" then
          some (csvHeader ";" ::
            (csvRowsSpec cs "train" train ++ csvRowsSpec cs "test" test))
         else none) ∧
    (csvRowsSpec cs "train" train ++ csvRowsSpec cs "test" test).length
      = ((train ++ test).map (fun im => im.boxes.length)).sum := by
  constructor
  · unfold exportCsv
    by_cases hp : path.endsWith ".csv"
    · rw [if_pos hp, if_neg (by simp [hp])]
      rw [processCsv_spec (fun img him =>
          ⟨(hwf img (by simp [him])).2.1, (hwf img (by simp [him])).2.2⟩)]
      rw [processCsv_spec (fun img him =>
          ⟨(hwf img (by simp [him])).2.1, (hwf img (by simp [him])).2.2⟩)]
      rfl
    · rw [if_neg hp, if_pos (by simp [hp])]
  · rw [List.length_append, List.map_append, List.sum_append,
      csvRowsSpec_length (fun img him => (hwf img (by simp [him])).1),
      csvRowsSpec_length (fun img him => (hwf img (by simp [him])).1)]

/-- Witness for C6: a CSV export of three images (two boxes, zero boxes, one
box) produces the header plus exactly 2 + 0 + 1 = 3 data rows, and the
structural theorem applies to it. -/
theorem export_csv_structure_witness :
    (∀ img ∈ ([⟨1, "a.jpg", "a.jpg", [[0, 0, 1, 1], [0, 0, 1, 1]], [0, 0],
          false, false, true⟩,
        ⟨2, "b.jpg", "b.jpg", [], [], false, false, true⟩] : List SImg)
        ++ [⟨3, "c.jpg", "c.jpg", [[0, 0, 1, 1]], [0], false, false, true⟩],
      img.boxes.length = img.label_uids.length ∧
      (∀ b ∈ img.boxes, b.length = 4) ∧
      (∀ u ∈ img.label_uids,
        (get_name [⟨0, "cat", "#FF0000", true⟩] u).isSome)) ∧
    exportCsv "out.csv"
        [⟨1, "a.jpg", "a.jpg", [[0, 0, 1, 1], [0, 0, 1, 1]], [0, 0],
          false, false, true⟩,
         ⟨2, "b.jpg", "b.jpg", [], [], false, false, true⟩]
        [⟨3, "c.jpg", "c.jpg", [[0, 0, 1, 1]], [0], false, false, true⟩]
        [⟨0, "cat", "#FF0000", true⟩] ";"
      = (if ("out.csv").endsWith ".csv" then
          some (csvHeader ";" ::
            (csvRowsSpec [⟨0, "cat", "#FF0000", true⟩] "train"
              [⟨1, "a.jpg", "a.jpg", [[0, 0, 1, 1], [0, 0, 1, 1]], [0, 0],
                false, false, true⟩,
               ⟨2, "b.jpg", "b.jpg", [], [], false, false, true⟩] ++
             csvRowsSpec [⟨0, "cat", "#FF0000", true⟩] "test"
              [⟨3, "c.jpg", "c.jpg", [[0, 0, 1, 1]], [0],
                false, false, true⟩]))
         else none) ∧
    (csvRowsSpec [⟨0, "cat", "#FF0000", true⟩] "train"
        [⟨1, "a.jpg", "a.jpg", [[0, 0, 1, 1], [0, 0, 1, 1]], [0, 0],
          false, false, true⟩,
         ⟨2, "b.jpg", "b.jpg", [], [], false, false, true⟩] ++
      csvRowsSpec [⟨0, "cat", "#FF0000", true⟩] "test"
        [⟨3, "c.jpg", "c.jpg", [[0, 0, 1, 1]], [0],
          false, false, true⟩]).length = 3 :=
  ⟨by decide,
    (export_csv_structure "out.csv"
      [⟨1, "a.jpg", "a.jpg", [[0, 0, 1, 1], [0, 0, 1, 1]], [0, 0],
        false, false, true⟩,
       ⟨2, "b.jpg", "b.jpg", [], [], false, false, true⟩]
      [⟨3, "c.jpg", "c.jpg", [[0, 0, 1, 1]], [0], false, false, true⟩]
      [⟨0, "cat", "#FF0000", true⟩] (by decide)).1,
    by decide⟩
